import Mathlib

/-
Verification of the cloud-resource billing repository.

Shallow embedding of the repository's services:
  * `services/wallet_service.py`   — wallet ledger (balance + archive)
  * `services/billing_service.py`  — billing engine (charges, retry, period end)
  * `services/resource_service.py` — resource store queries
  * `mq_consumer/parsers.py`       — message normalizer
  * `mq_consumer/consumer.py`      — ack/nack decision logic
  * `mq_consumer/api_client.py`    — HTTP retry loop

Python `Decimal` values are modelled as exact rationals (`ℚ`); the
six-fractional-digit quantization performed by `_format_amount`
(`value.quantize(Decimal('0.000001'))`, default rounding HALF_EVEN)
is modelled by `render` below.  Naive datetimes are rational seconds.
-/

namespace Billing

/-- Round half to even (the default `Decimal.quantize` rounding),
yielding the nearest integer to `q`. -/
def roundHalfEven (q : ℚ) : ℤ :=
  if q - ⌊q⌋ < 1/2 then ⌊q⌋
  else if 1/2 < q - ⌊q⌋ then ⌊q⌋ + 1
  else if ⌊q⌋ % 2 = 0 then ⌊q⌋ else ⌊q⌋ + 1

/-- Numeric value of `WalletService._format_amount`: quantize to six
fractional digits with round-half-even (trailing-zero stripping and the
`-0 → 0` fix-up do not change the numeric value). -/
def render (q : ℚ) : ℚ := (roundHalfEven (q * 1000000) : ℚ) / 1000000

/-- One entry of the Mongo `transaction_archives` document
(`WalletService._add_transaction`); `amount` and `balanceAfter` carry the
numeric values of the rendered decimal strings. -/
structure TxRec where
  amount : ℚ
  balanceAfter : ℚ
  txType : String
  reason : String
  priceVersion : Option String
deriving DecidableEq, Repr

/-- A `user_wallets` row (`models/mysql_models.py`) together with its
archive document (`transaction_archives`), linked by `mongo_archival_id`. -/
structure Wallet where
  user_id : String
  balance : ℚ
  currency : String
  auto_recharge : Bool
  allow_negative : Bool
  last_deducted_at : Option ℚ
  txs : List TxRec
deriving DecidableEq, Repr

/-- `WalletService._add_transaction`: append an archive entry with the
rendered amount and rendered balance-after. -/
def addTransaction (w : Wallet) (amount balanceAfter : ℚ)
    (txType reason : String) (pv : Option String) : Wallet :=
  { w with txs := w.txs ++ [⟨render amount, render balanceAfter, txType, reason, pv⟩] }

/-- `WalletService.add_credit` on a found wallet: unconditionally add the
amount to the balance and archive a credit entry. -/
def addCredit (w : Wallet) (amount : ℚ) (reason : String) : Wallet :=
  let balanceAfter := w.balance + amount
  addTransaction { w with balance := balanceAfter } amount balanceAfter "credit" reason none

/-- `WalletService.add_debit` on a found wallet: unconditionally subtract
the amount, stamp `last_deducted_at`, and archive a debit entry with the
negated amount.  The source performs no `allow_negative` or
insufficient-balance check and has no error return. -/
def addDebit (now : ℚ) (w : Wallet) (amount : ℚ) (reason : String)
    (pv : Option String) : Wallet :=
  let balanceAfter := w.balance - amount
  addTransaction { w with balance := balanceAfter, last_deducted_at := some now }
    (-amount) balanceAfter "debit" reason pv

/-- `WalletService.create_wallet`: fresh wallet (the `allow_negative`
column keeps its schema default `True`; the method accepts no
`allow_negative` argument), archiving an `Initial Balance` credit when the
starting balance is positive. -/
def createWallet (uid : String) (balance : ℚ) (currency : String)
    (autoRecharge : Bool) : Wallet :=
  let w : Wallet :=
    { user_id := uid, balance := balance, currency := currency,
      auto_recharge := autoRecharge, allow_negative := true,
      last_deducted_at := none, txs := [] }
  if 0 < balance then addTransaction w balance balance "credit" "Initial Balance" none else w

/-- A credit or debit request against the wallet service. -/
inductive WalletOp where
  | credit (amount : ℚ) (reason : String)
  | debit (amount : ℚ) (reason : String)
deriving DecidableEq, Repr

/-- The amount carried by a wallet operation. -/
def WalletOp.amount : WalletOp → ℚ
  | .credit a _ => a
  | .debit a _ => a

/-- Run a sequence of credit/debit operations against a wallet. -/
def runOps (now : ℚ) (w : Wallet) : List WalletOp → Wallet
  | [] => w
  | .credit a r :: rest => runOps now (addCredit w a r) rest
  | .debit a r :: rest => runOps now (addDebit now w a r none) rest

/-- The archive-ledger invariant claimed by the specification: every entry
continues the previous entry's balance by its own amount. -/
def archiveConsistent (txs : List TxRec) : Prop :=
  List.Chain' (fun a b => b.balanceAfter = a.balanceAfter + b.amount) txs

instance (txs : List TxRec) : Decidable (archiveConsistent txs) :=
  inferInstanceAs (Decidable (List.Chain' _ txs))

/-- `q` is an exact multiple of `0.000001`, i.e. the six-digit
quantization used by `render` is lossless on it. -/
def isMicro (q : ℚ) : Prop := (q * 1000000).den = 1

instance (q : ℚ) : Decidable (isMicro q) :=
  inferInstanceAs (Decidable ((q * 1000000).den = 1))

theorem roundHalfEven_intCast (n : ℤ) : roundHalfEven (n : ℚ) = n := by
  unfold roundHalfEven
  simp

/-- Evaluation helper: once the floor of `q` is pinned to `n`,
`roundHalfEven q` is a closed decision on `q - n`. -/
theorem roundHalfEven_eval (q : ℚ) (n : ℤ) (h1 : (n : ℚ) ≤ q) (h2 : q < n + 1) :
    roundHalfEven q =
      if q - n < 1/2 then n
      else if 1/2 < q - n then n + 1
      else if n % 2 = 0 then n else n + 1 := by
  unfold roundHalfEven
  rw [Int.floor_eq_iff.mpr ⟨h1, h2⟩]

theorem render_intCast (n : ℤ) : render (n : ℚ) = n := by
  unfold render
  rw [show ((n : ℚ) * 1000000) = ((n * 1000000 : ℤ) : ℚ) by push_cast; ring,
    roundHalfEven_intCast]
  push_cast
  rw [mul_div_assoc]
  norm_num

theorem render_isMicro (q : ℚ) (h : isMicro q) : render q = q := by
  unfold isMicro at h
  unfold render
  have hq : ((q * 1000000).num : ℚ) = q * 1000000 := by
    conv_rhs => rw [← Rat.num_div_den (q * 1000000)]
    rw [h]
    simp
  rw [← hq, roundHalfEven_intCast, hq]
  field_simp

theorem isMicro_add (a b : ℚ) (ha : isMicro a) (hb : isMicro b) :
    isMicro (a + b) := by
  unfold isMicro at *
  have hab : (a + b) * 1000000 = ((a * 1000000).num + (b * 1000000).num : ℤ) := by
    have h1 : ((a * 1000000).num : ℚ) = a * 1000000 := by
      conv_rhs => rw [← Rat.num_div_den (a * 1000000)]
      rw [ha]; simp
    have h2 : ((b * 1000000).num : ℚ) = b * 1000000 := by
      conv_rhs => rw [← Rat.num_div_den (b * 1000000)]
      rw [hb]; simp
    push_cast
    rw [h1, h2]; ring
  rw [hab]
  exact Rat.den_intCast _

theorem isMicro_neg (a : ℚ) (ha : isMicro a) : isMicro (-a) := by
  unfold isMicro at *
  have : (-a) * 1000000 = -(a * 1000000) := by ring
  rw [this, Rat.neg_den]
  exact ha

theorem isMicro_sub (a b : ℚ) (ha : isMicro a) (hb : isMicro b) :
    isMicro (a - b) := by
  have h := isMicro_add a (-b) ha (isMicro_neg b hb)
  have hs : a + -b = a - b := by ring
  rwa [hs] at h

theorem roundHalfEven_neg (q : ℚ) : roundHalfEven (-q) = -roundHalfEven q := by
  have hle : (⌊q⌋ : ℚ) ≤ q := Int.floor_le q
  have hlt : q < ⌊q⌋ + 1 := Int.lt_floor_add_one q
  by_cases h0 : q - ⌊q⌋ = 0
  · have hq : q = ((⌊q⌋ : ℤ) : ℚ) := by linarith
    rw [hq, show -((⌊q⌋ : ℤ) : ℚ) = ((-⌊q⌋ : ℤ) : ℚ) by push_cast; ring,
      roundHalfEven_intCast, roundHalfEven_intCast]
  · have hpos : 0 < q - ⌊q⌋ := by
      rcases lt_or_eq_of_le (sub_nonneg.mpr hle) with h | h
      · exact h
      · exact absurd h.symm h0
    have hfl : ⌊-q⌋ = -⌊q⌋ - 1 := by
      rw [Int.floor_eq_iff]
      constructor
      · push_cast; linarith
      · push_cast; linarith
    unfold roundHalfEven
    rw [hfl]
    have hfrac : -q - ((-⌊q⌋ - 1 : ℤ) : ℚ) = 1 - (q - ⌊q⌋) := by push_cast; ring
    rw [hfrac]
    rcases lt_trichotomy (q - ⌊q⌋) (1/2 : ℚ) with h | h | h
    · rw [if_neg (show ¬(1 - (q - ⌊q⌋) < 1/2) by linarith),
        if_pos (show (1:ℚ)/2 < 1 - (q - ⌊q⌋) by linarith),
        if_pos h]
      omega
    · rw [if_neg (show ¬(1 - (q - ⌊q⌋) < 1/2) by rw [h]; norm_num),
        if_neg (show ¬((1:ℚ)/2 < 1 - (q - ⌊q⌋)) by rw [h]; norm_num),
        if_neg (show ¬(q - ⌊q⌋ < 1/2) by rw [h]; norm_num),
        if_neg (show ¬((1:ℚ)/2 < q - ⌊q⌋) by rw [h]; norm_num)]
      rcases Int.even_or_odd ⌊q⌋ with he | ho
      · obtain ⟨k, hk⟩ := he
        rw [if_neg (show ¬((-⌊q⌋ - 1) % 2 = 0) by omega),
          if_pos (show ⌊q⌋ % 2 = 0 by omega)]
        omega
      · obtain ⟨k, hk⟩ := ho
        rw [if_pos (show (-⌊q⌋ - 1) % 2 = 0 by omega),
          if_neg (show ¬(⌊q⌋ % 2 = 0) by omega)]
        omega
    · rw [if_pos (show 1 - (q - ⌊q⌋) < 1/2 by linarith),
        if_neg (show ¬(q - ⌊q⌋ < 1/2) by linarith),
        if_pos h]
      omega

theorem render_neg (x : ℚ) : render (-x) = - render x := by
  unfold render
  have hm : -x * 1000000 = -(x * 1000000) := by ring
  rw [hm, roundHalfEven_neg]
  push_cast
  ring

/-- **C1** (code_bug demonstration).  `WalletService.add_debit` performs no
`allow_negative` / insufficient-balance check: on a wallet with
`allow_negative = false` and balance 5, debiting 10 mutates the balance to
−5, stamps `last_deducted_at`, and appends a debit archive entry — instead
of returning an `insufficient_balance` error with no state change as the
specification requires. -/
theorem addDebit_ignores_allow_negative :
    addDebit 100 ⟨"u1", 5, "USD", false, false, none, []⟩ 10 "usage" none
      = ⟨"u1", -5, "USD", false, false, some 100,
          [⟨-10, -5, "debit", "usage", none⟩]⟩ := by
  have h1 : render (-10 : ℚ) = -10 := by
    rw [show (-10 : ℚ) = ((-10 : ℤ) : ℚ) by norm_num, render_intCast]
  have h2 : render (5 - 10 : ℚ) = -5 := by
    rw [show (5 - 10 : ℚ) = ((-5 : ℤ) : ℚ) by norm_num, render_intCast]
    norm_num
  simp only [addDebit, addTransaction, List.nil_append]
  rw [h1, h2]
  simp only [Wallet.mk.injEq, TxRec.mk.injEq, List.cons.injEq]
  norm_num

/-- **C5** (counterexample).  The archive-chain invariant
`balance_after[i] = balance_after[i-1] + amount[i]` fails on the rendered
archive entries: starting from balance 1, two credits of `0.0000004` each
produce entries with rendered amount `0`, while the second rendered
balance-after is `1.000001` (half-even quantization to six digits), so the
second pair violates the invariant. -/
theorem archive_chain_counterexample :
    ¬ archiveConsistent
        (runOps 0 (createWallet "u1" 1 "USD" false)
          [.credit (4/10000000) "r1", .credit (4/10000000) "r2"]).txs := by
  have hr1 : render (1 : ℚ) = 1 := by
    rw [show (1 : ℚ) = ((1 : ℤ) : ℚ) by norm_num, render_intCast]
  have hr2 : render (4/10000000 : ℚ) = 0 := by
    unfold render
    rw [show (4/10000000 : ℚ) * 1000000 = 2/5 by norm_num,
      roundHalfEven_eval (2/5 : ℚ) 0 (by norm_num) (by norm_num)]
    norm_num
  have hr3 : render (1 + 4/10000000 : ℚ) = 1 := by
    unfold render
    rw [show (1 + 4/10000000 : ℚ) * 1000000 = 1000000 + 2/5 by norm_num,
      roundHalfEven_eval (1000000 + 2/5 : ℚ) 1000000 (by norm_num) (by norm_num)]
    norm_num
  have hr4 : render (1 + 4/10000000 + 4/10000000 : ℚ) = 1000001/1000000 := by
    unfold render
    rw [show (1 + 4/10000000 + 4/10000000 : ℚ) * 1000000 = 1000000 + 4/5 by norm_num,
      roundHalfEven_eval (1000000 + 4/5 : ℚ) 1000000 (by norm_num) (by norm_num)]
    norm_num
  simp only [createWallet]
  rw [if_pos (show (0:ℚ) < 1 by norm_num)]
  simp only [runOps, addCredit, addTransaction, List.nil_append, List.cons_append,
    List.singleton_append]
  rw [hr1, hr2, hr3, hr4]
  unfold archiveConsistent
  rw [List.chain'_cons, List.chain'_cons]
  simp only [List.chain'_singleton, and_true]
  rintro ⟨-, h23⟩
  norm_num at h23

theorem isMicro_of_eq_intCast (q : ℚ) (n : ℤ) (h : q * 1000000 = (n : ℚ)) :
    isMicro q := by
  unfold isMicro
  rw [h]
  exact Rat.den_intCast n

theorem getLast?_append_singleton {α : Type _} (l : List α) (a : α) :
    (l ++ [a]).getLast? = some a := by
  rw [List.getLast?_concat]

/-- Ledger invariant maintained by the wallet service when all amounts are
exact micro-multiples: the archive chain holds, the balance stays a
micro-multiple, and the last archive entry records the current balance. -/
def ledgerInv (w : Wallet) : Prop :=
  archiveConsistent w.txs ∧ isMicro w.balance ∧
  (∀ tx ∈ w.txs.getLast?, tx.balanceAfter = w.balance)

theorem addCredit_ledgerInv (w : Wallet) (a : ℚ) (r : String)
    (hw : ledgerInv w) (ha : isMicro a) : ledgerInv (addCredit w a r) := by
  obtain ⟨hchain, hmic, hlast⟩ := hw
  have hmic' : isMicro (w.balance + a) := isMicro_add _ _ hmic ha
  refine ⟨?_, ?_, ?_⟩
  · unfold archiveConsistent at hchain ⊢
    simp only [addCredit, addTransaction]
    rw [List.chain'_append]
    refine ⟨hchain, List.chain'_singleton _, ?_⟩
    intro x hx y hy
    simp only [List.head?_cons, Option.mem_def, Option.some.injEq] at hy
    subst hy
    simp only
    rw [render_isMicro _ hmic', render_isMicro _ ha, hlast x hx]
  · simpa only [addCredit, addTransaction] using hmic'
  · intro tx htx
    simp only [addCredit, addTransaction, getLast?_append_singleton,
      Option.mem_def, Option.some.injEq] at htx
    subst htx
    simp only
    exact render_isMicro _ hmic'

theorem addDebit_ledgerInv (now : ℚ) (w : Wallet) (a : ℚ) (r : String)
    (pv : Option String) (hw : ledgerInv w) (ha : isMicro a) :
    ledgerInv (addDebit now w a r pv) := by
  obtain ⟨hchain, hmic, hlast⟩ := hw
  have hmic' : isMicro (w.balance - a) := isMicro_sub _ _ hmic ha
  refine ⟨?_, ?_, ?_⟩
  · unfold archiveConsistent at hchain ⊢
    simp only [addDebit, addTransaction]
    rw [List.chain'_append]
    refine ⟨hchain, List.chain'_singleton _, ?_⟩
    intro x hx y hy
    simp only [List.head?_cons, Option.mem_def, Option.some.injEq] at hy
    subst hy
    simp only
    rw [render_isMicro _ hmic', render_neg, render_isMicro _ ha, hlast x hx]
    ring
  · simpa only [addDebit, addTransaction] using hmic'
  · intro tx htx
    simp only [addDebit, addTransaction, getLast?_append_singleton,
      Option.mem_def, Option.some.injEq] at htx
    subst htx
    simp only
    exact render_isMicro _ hmic'

theorem createWallet_ledgerInv (uid cur : String) (ar : Bool) (b0 : ℚ)
    (hb : isMicro b0) : ledgerInv (createWallet uid b0 cur ar) := by
  unfold createWallet
  by_cases h : (0:ℚ) < b0
  · rw [if_pos h]
    refine ⟨?_, hb, ?_⟩
    · unfold archiveConsistent addTransaction
      simp only [List.nil_append]
      exact List.chain'_singleton _
    · intro tx htx
      simp only [addTransaction, List.nil_append, List.getLast?_singleton,
        Option.mem_def, Option.some.injEq] at htx
      subst htx
      simp only
      exact render_isMicro _ hb
  · rw [if_neg h]
    refine ⟨?_, hb, ?_⟩
    · exact List.chain'_nil
    · intro tx htx
      simp at htx

theorem runOps_ledgerInv (now : ℚ) (ops : List WalletOp) : ∀ (w : Wallet),
    ledgerInv w → (∀ op ∈ ops, isMicro op.amount) →
    ledgerInv (runOps now w ops) := by
  induction ops with
  | nil =>
    intro w hw _
    simpa only [runOps] using hw
  | cons op rest ih =>
    intro w hw hops
    cases op with
    | credit a r =>
      simp only [runOps]
      apply ih
      · refine addCredit_ledgerInv w a r hw ?_
        have := hops (.credit a r) (List.mem_cons_self _ _)
        simpa only [WalletOp.amount] using this
      · intro o ho
        exact hops o (List.mem_cons_of_mem _ ho)
    | debit a r =>
      simp only [runOps]
      apply ih
      · refine addDebit_ledgerInv now w a r none hw ?_
        have := hops (.debit a r) (List.mem_cons_self _ _)
        simpa only [WalletOp.amount] using this
      · intro o ho
        exact hops o (List.mem_cons_of_mem _ ho)

/-- **C5** (amended).  For a wallet created with a micro-exact starting
balance, after any sequence of credit/debit operations whose amounts are
exact multiples of `0.000001` (so the six-digit quantization used when
entries are rendered is lossless), every pair of consecutive archive
entries satisfies `balance_after[i] = balance_after[i-1] + amount[i]`.
(The unrounded balances always satisfy the relation; the rendered entries
can violate it only by sub-microunit rounding, as the counterexample
shows.) -/
theorem archive_balance_chain (uid cur : String) (ar : Bool) (b0 now : ℚ)
    (ops : List WalletOp) (hb : isMicro b0)
    (hops : ∀ op ∈ ops, isMicro op.amount) :
    archiveConsistent (runOps now (createWallet uid b0 cur ar) ops).txs :=
  (runOps_ledgerInv now ops _ (createWallet_ledgerInv uid cur ar b0 hb) hops).1

/-- Witness for `archive_balance_chain` at a concrete wallet history. -/
theorem archive_balance_chain_witness :
    archiveConsistent (runOps 5 (createWallet "u1" 1 "USD" false)
      [.credit (1/2) "topup", .debit (1/2) "usage"]).txs :=
  archive_balance_chain "u1" "USD" false 1 5 _
    (isMicro_of_eq_intCast 1 1000000 (by norm_num))
    (by
      intro op hop
      rcases List.mem_cons.mp hop with h | h
      · subst h
        exact isMicro_of_eq_intCast _ 500000 (by norm_num [WalletOp.amount])
      · rcases List.mem_cons.mp h with h2 | h2
        · subst h2
          exact isMicro_of_eq_intCast _ 500000 (by norm_num [WalletOp.amount])
        · simp at h2)

/-- **C6**: a credit of `x` followed by a debit of `x` restores the wallet
balance exactly, and appends exactly two archive entries whose (rendered)
amounts sum to zero. -/
theorem credit_debit_roundtrip (w : Wallet) (x : ℚ) (r1 r2 : String)
    (pv : Option String) (now : ℚ) :
    (addDebit now (addCredit w x r1) x r2 pv).balance = w.balance ∧
    ∃ e1 e2 : TxRec,
      (addDebit now (addCredit w x r1) x r2 pv).txs = w.txs ++ [e1, e2] ∧
      e1.amount + e2.amount = 0 := by
  constructor
  · simp only [addDebit, addCredit, addTransaction]
    ring
  · refine ⟨⟨render x, render (w.balance + x), "credit", r1, none⟩,
      ⟨render (-x), render (w.balance + x - x), "debit", r2, pv⟩, ?_, ?_⟩
    · simp only [addDebit, addCredit, addTransaction, List.append_assoc,
        List.singleton_append]
    · simp only [render_neg]
      ring

/-! ### Billing period end (`BillingService.compute_bill` / `_ensure_naive`) -/

/-- A Python datetime: wall-clock value in seconds, plus whether it carries
a tzinfo.  `replace(tzinfo=None)` keeps the wall-clock value. -/
structure PyDateTime where
  wall : ℚ
  tzAware : Bool
deriving DecidableEq, Repr

/-- `BillingService._ensure_naive`: `None` becomes `utcnow()`; an aware
datetime has its tzinfo dropped (wall clock kept); a naive datetime is
returned unchanged. -/
def ensureNaive (now : ℚ) : Option PyDateTime → PyDateTime
  | none => ⟨now, false⟩
  | some d => ⟨d.wall, false⟩

/-- Effective period end chosen by `BillingService.compute_bill`
(lines 319–322): `utcnow()` when no `period_end` is supplied, otherwise
`_ensure_naive(period_end)` — there is no comparison with `now`. -/
def computeBillPeriodEnd (now : ℚ) : Option PyDateTime → PyDateTime
  | none => ⟨now, false⟩
  | some p => ensureNaive now (some p)

/-- **C8** (counterexample).  With `now = 100` and an explicit
`period_end = 200` lying in the future, `compute_bill` uses `200` as the
effective period end, not `min(period_end, now) = 100`: a future
`period_end` is not clamped to the current time. -/
theorem periodEnd_not_clamped :
    (computeBillPeriodEnd 100 (some ⟨200, false⟩)).wall = 200 ∧
    min (200 : ℚ) 100 = 100 ∧ (200 : ℚ) ≠ 100 := by
  refine ⟨rfl, min_eq_right (by norm_num), by norm_num⟩

/-- **C8** (amended).  With an explicit `period_end` the billing engine
uses `period_end` itself, normalized to naive by dropping tzinfo, as the
effective period end — it is never clamped to `now`; `now` is used only
when `period_end` is omitted. -/
theorem computeBillPeriodEnd_spec (now : ℚ) (p : PyDateTime) :
    computeBillPeriodEnd now (some p) = ⟨p.wall, false⟩ ∧
    computeBillPeriodEnd now none = ⟨now, false⟩ :=
  ⟨rfl, rfl⟩

/-! ### Resource store (`services/resource_service.py`) -/

/-- An entry of a resource document's `events` array (only the fields the
billing claims inspect: `time`, `type`, and `meta.flavor`). -/
structure EventRec where
  time : ℚ
  type : String
  metaFlavor : Option String
deriving DecidableEq, Repr

/-- A `compute_resources` document. -/
structure ComputeDoc where
  resource_id : String
  user_id : String
  state : String
  current_flavor : String
  created_at : ℚ
  deleted_at : Option ℚ
  last_billed_until : ℚ
  events : List EventRec
deriving DecidableEq, Repr

/-- `ResourceService.get_user_computes` (lines 56–60): the query filters
`{"user_id": user_id, "deleted_at": None}` — soft-deleted resources are
excluded, and the method accepts no `include_deleted` parameter. -/
def getUserComputes (docs : List ComputeDoc) (uid : String) : List ComputeDoc :=
  docs.filter (fun d => d.user_id == uid && d.deleted_at == none)

/-- **C2** (code_bug demonstration).  A soft-deleted compute resource
belonging to the user is not returned by `get_user_computes`, so the
billing pass never sees it (independently of the `TypeError` raised by the
`include_deleted=True` keyword that `BillingService._compute_resource_charges`
passes to this method). -/
theorem getUserComputes_excludes_soft_deleted :
    getUserComputes [⟨"c1", "u1", "deleted", "small", 0, some 50, 0, []⟩] "u1"
      = [] := by
  rfl

/-! ### Bill retry (`BillingService.retry_failed_bill`) -/

/-- One element of a bill's `charges` array. -/
structure BillCharge where
  ctype : String
  resource_id : String
  amount : ℚ
deriving DecidableEq, Repr

/-- A `billing_cycles` document (fields the retry path touches). -/
structure Bill where
  bill_id : String
  user_id : String
  status : String
  paid : Bool
  charges : List BillCharge
  total : ℚ
  price_version : Option String
deriving DecidableEq, Repr

/-- The persistent state the retry path touches: the bill collection, the
wallet rows (with their archives), and the compute resource documents
(whose `last_billed_until` cursors retry never rewrites). -/
structure DBState where
  bills : List Bill
  wallets : List Wallet
  computes : List ComputeDoc
deriving DecidableEq, Repr

def findBill (bills : List Bill) (billId : String) : Option Bill :=
  bills.find? (fun b => b.bill_id == billId)

def findWallet (ws : List Wallet) (uid : String) : Option Wallet :=
  ws.find? (fun w => w.user_id == uid)

/-- `WalletService.add_debit` seen from the billing service: `None` (here
`false`) exactly when no wallet row exists for the user; otherwise the
wallet is debited and a result dict without an `error` key is returned. -/
def serviceAddDebit (st : DBState) (now : ℚ) (uid : String) (amount : ℚ)
    (reason : String) (pv : Option String) : DBState × Bool :=
  match findWallet st.wallets uid with
  | none => (st, false)
  | some _ =>
    let ws := st.wallets.map
      (fun w => if w.user_id == uid then addDebit now w amount reason pv else w)
    ({ st with wallets := ws }, true)

/-- Result dict of `BillingService.retry_failed_bill`. -/
inductive RetryResult where
  | errNotFound
  | errAlreadyPaid
  | retried (status : String) (paid : Bool) (errorMsg : Option String)
deriving DecidableEq, Repr

/-- `BillingService.retry_failed_bill`: look up the stored bill; error if
absent or already paid; otherwise re-run only the settlement debit against
the stored total and, on success, flip the stored bill to
`success`/`paid`.  (On debit failure only the returned dict is marked
`failed`; the stored bill is not rewritten.) -/
def retryFailedBill (st : DBState) (now : ℚ) (billId : String) :
    DBState × RetryResult :=
  match findBill st.bills billId with
  | none => (st, .errNotFound)
  | some b =>
    if b.paid then (st, .errAlreadyPaid)
    else
      let step := serviceAddDebit st now b.user_id b.total
        ("Retry billing: " ++ billId) b.price_version
      if step.2 then
        let bs := step.1.bills.map
          (fun x => if x.bill_id == billId then
            { x with status := "success", paid := true } else x)
        ({ step.1 with bills := bs }, .retried "success" true none)
      else
        (step.1, .retried "failed" b.paid (some "Unknown error"))

theorem find?_map_update {α : Type _} (p : α → Bool) (g : α → α) (l : List α)
    (hg : ∀ x, p (g x) = p x) :
    (l.map (fun x => if p x then g x else x)).find? p = (l.find? p).map g := by
  induction l with
  | nil => rfl
  | cons x xs ih =>
    by_cases hx : p x = true
    · rw [List.map_cons, if_pos hx, List.find?_cons_of_pos _ (by rw [hg]; exact hx),
        List.find?_cons_of_pos _ hx, Option.map_some']
    · rw [List.map_cons, if_neg hx, List.find?_cons_of_neg _ (by simpa using hx),
        List.find?_cons_of_neg _ (by simpa using hx), ih]

/-- **C7**: `retry_failed_bill` re-executes only the settlement step.
Retrying an already-paid bill returns an error and changes nothing; when
the debit succeeds the stored bill flips to `status = "success"`,
`paid = true` while its `charges` and `total` are exactly the stored ones
(never recomputed), the compute documents (hence every
`last_billed_until` cursor) are untouched, and the wallet is debited by
the stored total once. -/
theorem retryFailedBill_spec (st : DBState) (now : ℚ) (billId : String)
    (b : Bill) (hfind : findBill st.bills billId = some b) :
    (b.paid = true → retryFailedBill st now billId = (st, .errAlreadyPaid)) ∧
    (∀ w, b.paid = false → findWallet st.wallets b.user_id = some w →
      (retryFailedBill st now billId).2 = .retried "success" true none ∧
      (∃ b2, findBill (retryFailedBill st now billId).1.bills billId = some b2 ∧
        b2.status = "success" ∧ b2.paid = true ∧
        b2.charges = b.charges ∧ b2.total = b.total) ∧
      (retryFailedBill st now billId).1.computes = st.computes ∧
      findWallet (retryFailedBill st now billId).1.wallets b.user_id =
        some (addDebit now w b.total ("Retry billing: " ++ billId)
          b.price_version)) := by
  constructor
  · intro hpaid
    simp only [retryFailedBill, hfind, hpaid, if_pos]
  · intro w hpaid hw
    have hr : retryFailedBill st now billId =
        ({ bills := st.bills.map
            (fun x => if x.bill_id == billId then
              { x with status := "success", paid := true } else x),
           wallets := st.wallets.map
            (fun x => if x.user_id == b.user_id then
              addDebit now x b.total ("Retry billing: " ++ billId)
                b.price_version else x),
           computes := st.computes },
          .retried "success" true none) := by
      simp [retryFailedBill, serviceAddDebit, hfind, hpaid, hw]
    refine ⟨by rw [hr], ⟨{ b with status := "success", paid := true }, ?_, rfl, rfl, rfl, rfl⟩,
      by rw [hr], ?_⟩
    · rw [hr]
      simp only [findBill] at hfind ⊢
      rw [find?_map_update (fun x => x.bill_id == billId)
        (fun x => { x with status := "success", paid := true }) st.bills
        (fun x => rfl), hfind, Option.map_some']
    · rw [hr]
      simp only [findWallet] at hw ⊢
      rw [find?_map_update (fun x => x.user_id == b.user_id)
        (fun x => addDebit now x b.total ("Retry billing: " ++ billId)
          b.price_version) st.wallets (fun x => rfl), hw, Option.map_some']

/-- Concrete failed bill, wallet, and database used by the retry witness. -/
def retryBillEx : Bill :=
  ⟨"b1", "u1", "failed", false, [⟨"compute", "c1", 1⟩], 1, some "v1"⟩

/-- Concrete wallet row for the retry witness. -/
def retryWalletEx : Wallet := ⟨"u1", 10, "USD", false, true, none, []⟩

/-- Concrete database for the retry witness. -/
def retryStateEx : DBState := ⟨[retryBillEx], [retryWalletEx], []⟩

/-- Witness for `retryFailedBill_spec` on a concrete failed bill. -/
theorem retryFailedBill_spec_witness :
    (retryFailedBill retryStateEx 7 "b1").2 = .retried "success" true none ∧
    (∃ b2, findBill (retryFailedBill retryStateEx 7 "b1").1.bills "b1" = some b2 ∧
      b2.status = "success" ∧ b2.paid = true ∧
      b2.charges = retryBillEx.charges ∧ b2.total = retryBillEx.total) ∧
    (retryFailedBill retryStateEx 7 "b1").1.computes = retryStateEx.computes ∧
    findWallet (retryFailedBill retryStateEx 7 "b1").1.wallets retryBillEx.user_id =
      some (addDebit 7 retryWalletEx retryBillEx.total
        ("Retry billing: " ++ "b1") retryBillEx.price_version) :=
  (retryFailedBill_spec retryStateEx 7 "b1" retryBillEx rfl).2 retryWalletEx rfl rfl

/-! ### Compute charge calculation (`BillingService._calculate_compute_charge`) -/

/-- `BillingService._calculate_hours`: `total_seconds / 3600`. -/
def calcHours (s e : ℚ) : ℚ := (e - s) / 3600

/-- Lookup in the pricing `compute` table (`flavor → per_hour`; a rate
dict without a `per_hour` key behaves as rate 0 and is collapsed here). -/
def lookupFlavor (table : List (String × ℚ)) (k : String) : Option ℚ :=
  (table.find? (fun p => p.1 == k)).map (fun p => p.2)

/-- Rate resolution: `pricing["compute"].get(flavor,
pricing["compute"].get("others", {}))` then `.get("per_hour", 0)`. -/
def ratePerHour (table : List (String × ℚ)) (flavor : String) : ℚ :=
  match lookupFlavor table flavor with
  | some r => r
  | none =>
    match lookupFlavor table "others" with
    | some r => r
    | none => 0

/-- Emptiness of a string via its character list (Python falsiness of a
string value). -/
def strEmpty (s : String) : Bool := s.data.isEmpty

/-- `str.lower()` via the character list. -/
def lowerStr (s : String) : String := ⟨s.data.map Char.toLower⟩

/-- Python truthiness of the `current_flavor` value (`None` and the empty
string are falsy). -/
def flavorTruthy : Option String → Bool
  | some s => !(strEmpty s)
  | none => false

/-- `meta.get("flavor", current_flavor)`: keep the old flavor when the
event meta carries none. -/
def orKeep (new old : Option String) : Option String :=
  match new with
  | some v => some v
  | none => old

/-- Insert an event after all already-sorted events of smaller-or-equal
time (the stability of Python's `list.sort`). -/
def insertByTime (x : EventRec) : List EventRec → List EventRec
  | [] => [x]
  | y :: ys => if y.time ≤ x.time then y :: insertByTime x ys else x :: y :: ys

/-- Stable sort by event time. -/
def sortByTime (l : List EventRec) : List EventRec :=
  l.foldl (fun acc x => insertByTime x acc) []

/-- `BillingService._get_billable_segments`: the events strictly after
`last_billed` and up through `period_end`, sorted by time. -/
def billableSegments (events : List EventRec) (lastBilled periodEnd : ℚ) :
    List EventRec :=
  sortByTime (events.filter
    (fun e => decide (lastBilled < e.time) && decide (e.time ≤ periodEnd)))

/-- Initial-state replay (lines 103–118): walk the time-sorted events,
applying `create`/`resize`/state events while `time ≤ last_billed`, and
break at the first later event. -/
def replayGo (lb : ℚ) : List EventRec → Option String → Option String →
    Option String × Option String
  | [], f, s => (f, s)
  | e :: rest, f, s =>
    if e.time ≤ lb then
      if e.type == "create" then
        replayGo lb rest (orKeep e.metaFlavor f) (some "running")
      else if e.type == "resize" then
        replayGo lb rest (orKeep e.metaFlavor f) s
      else if e.type == "running" || e.type == "stopped" || e.type == "deleted" then
        replayGo lb rest f (some e.type)
      else
        replayGo lb rest f s
    else (f, s)

/-- The segment walk (lines 136–146): returns the accumulated charge, the
final `current_time`, and the final flavor/state. -/
def segLoop (table : List (String × ℚ)) :
    List EventRec → ℚ → ℚ → Option String → String →
    ℚ × ℚ × Option String × String
  | [], charge, ct, f, s => (charge, ct, f, s)
  | seg :: rest, charge, ct, f, s =>
    let charge' := if s == "running" && flavorTruthy f then
        charge + calcHours ct seg.time * ratePerHour table (f.getD "")
      else charge
    let f' := if seg.type == "resize" then orKeep seg.metaFlavor f else f
    let s' := if seg.type == "resize" then s
      else if seg.type == "running" || seg.type == "stopped" || seg.type == "deleted"
      then seg.type else s
    segLoop table rest charge' seg.time f' s'

/-- A maximal charged sub-interval produced by the walk: the charge
contribution is `rate × (hi − lo)/3600`. -/
structure ChargedIv where
  lo : ℚ
  hi : ℚ
  rate : ℚ
deriving DecidableEq, Repr

/-- The same walk as `segLoop`, recording the charged intervals instead of
summing them. -/
def segLoopIv (table : List (String × ℚ)) :
    List EventRec → ℚ → Option String → String →
    List ChargedIv × ℚ × Option String × String
  | [], ct, f, s => ([], ct, f, s)
  | seg :: rest, ct, f, s =>
    let hd : List ChargedIv := if s == "running" && flavorTruthy f then
        [⟨ct, seg.time, ratePerHour table (f.getD "")⟩]
      else []
    let f' := if seg.type == "resize" then orKeep seg.metaFlavor f else f
    let s' := if seg.type == "resize" then s
      else if seg.type == "running" || seg.type == "stopped" || seg.type == "deleted"
      then seg.type else s
    let rest' := segLoopIv table rest seg.time f' s'
    (hd ++ rest'.1, rest'.2)

/-- Total charge represented by a list of charged intervals. -/
def ivSum (l : List ChargedIv) : ℚ :=
  (l.map (fun iv => calcHours iv.lo iv.hi * iv.rate)).sum

/-- The guard of the tail charge (lines 159): `state = running ∧ flavor
truthy ∧ not deleted during the window ∧ current_time < period_end`. -/
def tailCond (sN : String) (fN : Option String) (isDeleted : Bool)
    (ct pe : ℚ) : Bool :=
  sN == "running" && flavorTruthy fN && !isDeleted && decide (ct < pe)

/-- `BillingService._calculate_compute_charge`. -/
def calculateComputeCharge (doc : ComputeDoc) (lastBilled periodEnd : ℚ)
    (table : List (String × ℚ)) : ℚ :=
  let segments := billableSegments doc.events lastBilled periodEnd
  let fs := replayGo lastBilled (sortByTime doc.events) none none
  let flavor : Option String := some (fs.1.getD doc.current_flavor)
  let state : String := fs.2.getD doc.state
  if segments.isEmpty then
    if state ≠ "running" then 0
    else calcHours lastBilled periodEnd * ratePerHour table doc.current_flavor
  else
    let r := segLoop table segments 0 lastBilled flavor state
    let isDeleted := segments.any (fun seg => seg.type == "deleted")
    if tailCond r.2.2.2 r.2.2.1 isDeleted r.2.1 periodEnd then
      r.1 + calcHours r.2.1 periodEnd * ratePerHour table (r.2.2.1.getD "")
    else r.1

/-- The charged intervals of `_calculate_compute_charge` (same control
flow, collecting intervals instead of summing the charge). -/
def chargedIntervals (doc : ComputeDoc) (lastBilled periodEnd : ℚ)
    (table : List (String × ℚ)) : List ChargedIv :=
  let segments := billableSegments doc.events lastBilled periodEnd
  let fs := replayGo lastBilled (sortByTime doc.events) none none
  let flavor : Option String := some (fs.1.getD doc.current_flavor)
  let state : String := fs.2.getD doc.state
  if segments.isEmpty then
    if state ≠ "running" then []
    else [⟨lastBilled, periodEnd, ratePerHour table doc.current_flavor⟩]
  else
    let r := segLoopIv table segments lastBilled flavor state
    let isDeleted := segments.any (fun seg => seg.type == "deleted")
    if tailCond r.2.2.2 r.2.2.1 isDeleted r.2.1 periodEnd then
      r.1 ++ [⟨r.2.1, periodEnd, ratePerHour table (r.2.2.1.getD "")⟩]
    else r.1

/-- Per-resource billing cutoff computed in `_compute_resource_charges`
(lines 224–228): `deleted_at` when it exists and precedes `period_end`,
otherwise `period_end`. -/
def resourceBillingEnd (deletedAt : Option ℚ) (periodEnd : ℚ) : ℚ :=
  match deletedAt with
  | some d => if d < periodEnd then d else periodEnd
  | none => periodEnd

theorem ivSum_append (a b : List ChargedIv) : ivSum (a ++ b) = ivSum a + ivSum b := by
  unfold ivSum
  rw [List.map_append, List.sum_append]

theorem segLoop_eq_Iv (table : List (String × ℚ)) (segs : List EventRec) :
    ∀ (charge ct : ℚ) (f : Option String) (s : String),
    segLoop table segs charge ct f s =
      (charge + ivSum (segLoopIv table segs ct f s).1,
        (segLoopIv table segs ct f s).2) := by
  induction segs with
  | nil =>
    intro charge ct f s
    simp [segLoop, segLoopIv, ivSum]
  | cons seg rest ih =>
    intro charge ct f s
    simp only [segLoop, segLoopIv]
    rw [ih]
    by_cases hcond : (s == "running" && flavorTruthy f) = true
    · simp only [hcond, if_true, ivSum_append]
      rw [Prod.mk.injEq]
      refine ⟨?_, rfl⟩
      simp only [ivSum, List.map_cons, List.map_nil, List.sum_cons, List.sum_nil]
      ring
    · simp only [hcond, if_false, Bool.false_eq_true, List.nil_append]

theorem mem_insertByTime (x y : EventRec) (l : List EventRec) :
    y ∈ insertByTime x l ↔ y ∈ x :: l := by
  induction l with
  | nil => simp [insertByTime]
  | cons z zs ih =>
    unfold insertByTime
    by_cases h : z.time ≤ x.time
    · rw [if_pos h]
      simp only [List.mem_cons] at ih ⊢
      rw [ih]
      tauto
    · rw [if_neg h]

theorem mem_foldl_insert (l : List EventRec) :
    ∀ (acc : List EventRec) (y : EventRec),
    (y ∈ l.foldl (fun a x => insertByTime x a) acc ↔ y ∈ acc ∨ y ∈ l) := by
  induction l with
  | nil => intro acc y; simp
  | cons x xs ih =>
    intro acc y
    simp only [List.foldl_cons]
    rw [ih, mem_insertByTime]
    simp only [List.mem_cons]
    tauto

theorem mem_sortByTime (l : List EventRec) (y : EventRec) :
    y ∈ sortByTime l ↔ y ∈ l := by
  unfold sortByTime
  rw [mem_foldl_insert]
  simp

theorem pairwise_insertByTime (x : EventRec) (l : List EventRec)
    (h : List.Pairwise (fun a b => a.time ≤ b.time) l) :
    List.Pairwise (fun a b => a.time ≤ b.time) (insertByTime x l) := by
  induction l with
  | nil => simp [insertByTime]
  | cons z zs ih =>
    rw [List.pairwise_cons] at h
    unfold insertByTime
    by_cases hz : z.time ≤ x.time
    · rw [if_pos hz, List.pairwise_cons]
      constructor
      · intro a ha
        rw [mem_insertByTime] at ha
        rcases List.mem_cons.mp ha with h1 | h1
        · subst h1; exact hz
        · exact h.1 a h1
      · exact ih h.2
    · rw [if_neg hz, List.pairwise_cons]
      constructor
      · intro a ha
        rcases List.mem_cons.mp ha with h1 | h1
        · subst h1; exact le_of_lt (lt_of_not_le hz)
        · exact le_trans (le_of_lt (lt_of_not_le hz)) (h.1 a h1)
      · rw [List.pairwise_cons]
        exact h

theorem pairwise_sortByTime (l : List EventRec) :
    List.Pairwise (fun a b => a.time ≤ b.time) (sortByTime l) := by
  unfold sortByTime
  have : ∀ acc, List.Pairwise (fun a b : EventRec => a.time ≤ b.time) acc →
      List.Pairwise (fun a b : EventRec => a.time ≤ b.time)
        (l.foldl (fun a x => insertByTime x a) acc) := by
    induction l with
    | nil => intro acc h; simpa using h
    | cons x xs ih =>
      intro acc h
      simp only [List.foldl_cons]
      exact ih _ (pairwise_insertByTime x acc h)
  exact this [] List.Pairwise.nil

theorem billableSegments_mem (events : List EventRec) (lb pe : ℚ)
    (e : EventRec) (he : e ∈ billableSegments events lb pe) :
    lb < e.time ∧ e.time ≤ pe := by
  unfold billableSegments at he
  rw [mem_sortByTime, List.mem_filter] at he
  have := he.2
  simp only [Bool.and_eq_true, decide_eq_true_eq] at this
  exact this

theorem segLoopIv_bounds (table : List (String × ℚ)) (segs : List EventRec) :
    ∀ (ct : ℚ) (f : Option String) (s : String) (lb pe : ℚ),
    lb ≤ ct →
    (∀ e ∈ segs, ct ≤ e.time ∧ e.time ≤ pe) →
    List.Pairwise (fun a b => a.time ≤ b.time) segs →
    (∀ iv ∈ (segLoopIv table segs ct f s).1,
      lb ≤ iv.lo ∧ iv.lo ≤ iv.hi ∧ iv.hi ≤ pe) ∧
    lb ≤ (segLoopIv table segs ct f s).2.1 := by
  induction segs with
  | nil =>
    intro ct f s lb pe hlb _ _
    constructor
    · intro iv hiv
      simp [segLoopIv] at hiv
    · simpa [segLoopIv] using hlb
  | cons seg rest ih =>
    intro ct f s lb pe hlb hmem hpw
    have hseg := hmem seg (List.mem_cons_self _ _)
    rw [List.pairwise_cons] at hpw
    have hrest : ∀ e ∈ rest, seg.time ≤ e.time ∧ e.time ≤ pe :=
      fun e he => ⟨hpw.1 e he, (hmem e (List.mem_cons_of_mem _ he)).2⟩
    have hlb' : lb ≤ seg.time := le_trans hlb hseg.1
    constructor
    · intro iv hiv
      simp only [segLoopIv] at hiv
      rcases List.mem_append.mp hiv with h | h
      · by_cases hcond : (s == "running" && flavorTruthy f) = true
        · rw [if_pos hcond] at h
          rcases List.mem_singleton.mp h with rfl
          exact ⟨hlb, hseg.1, hseg.2⟩
        · rw [if_neg hcond] at h
          simp at h
      · exact ((ih seg.time _ _ lb pe hlb' hrest hpw.2).1) iv h
    · simp only [segLoopIv]
      exact (ih seg.time _ _ lb pe hlb' hrest hpw.2).2

theorem calculateComputeCharge_eq_ivSum (doc : ComputeDoc) (lb pe : ℚ)
    (table : List (String × ℚ)) :
    calculateComputeCharge doc lb pe table
      = ivSum (chargedIntervals doc lb pe table) := by
  unfold calculateComputeCharge chargedIntervals
  by_cases hseg : (billableSegments doc.events lb pe).isEmpty
  · rw [if_pos hseg, if_pos hseg]
    by_cases hst : ((replayGo lb (sortByTime doc.events) none none).2.getD doc.state)
        ≠ "running"
    · rw [if_pos hst, if_pos hst]
      simp [ivSum]
    · rw [if_neg hst, if_neg hst]
      simp only [ivSum, List.map_cons, List.map_nil, List.sum_cons, List.sum_nil]
      ring
  · rw [if_neg hseg, if_neg hseg]
    rw [segLoop_eq_Iv]
    by_cases htail : tailCond
        (segLoopIv table (billableSegments doc.events lb pe) lb
          (some ((replayGo lb (sortByTime doc.events) none none).1.getD
            doc.current_flavor))
          ((replayGo lb (sortByTime doc.events) none none).2.getD doc.state)).2.2.2
        (segLoopIv table (billableSegments doc.events lb pe) lb
          (some ((replayGo lb (sortByTime doc.events) none none).1.getD
            doc.current_flavor))
          ((replayGo lb (sortByTime doc.events) none none).2.getD doc.state)).2.2.1
        ((billableSegments doc.events lb pe).any (fun seg => seg.type == "deleted"))
        (segLoopIv table (billableSegments doc.events lb pe) lb
          (some ((replayGo lb (sortByTime doc.events) none none).1.getD
            doc.current_flavor))
          ((replayGo lb (sortByTime doc.events) none none).2.getD doc.state)).2.1
        pe = true
    · rw [if_pos htail, if_pos htail, ivSum_append]
      simp only [ivSum, List.map_cons, List.map_nil, List.sum_cons, List.sum_nil]
      ring
    · rw [if_neg htail, if_neg htail]
      ring

theorem chargedIntervals_bounds (doc : ComputeDoc) (lb pe : ℚ)
    (table : List (String × ℚ)) (hlbpe : lb ≤ pe) :
    ∀ iv ∈ chargedIntervals doc lb pe table,
      lb ≤ iv.lo ∧ iv.lo ≤ iv.hi ∧ iv.hi ≤ pe := by
  unfold chargedIntervals
  by_cases hseg : (billableSegments doc.events lb pe).isEmpty
  · rw [if_pos hseg]
    by_cases hst : ((replayGo lb (sortByTime doc.events) none none).2.getD doc.state)
        ≠ "running"
    · rw [if_pos hst]
      intro iv hiv
      simp at hiv
    · rw [if_neg hst]
      intro iv hiv
      rcases List.mem_singleton.mp hiv with rfl
      exact ⟨le_refl _, hlbpe, le_refl _⟩
  · rw [if_neg hseg]
    have hmem : ∀ e ∈ billableSegments doc.events lb pe,
        lb ≤ e.time ∧ e.time ≤ pe := by
      intro e he
      have := billableSegments_mem doc.events lb pe e he
      exact ⟨le_of_lt this.1, this.2⟩
    have hbd := segLoopIv_bounds table (billableSegments doc.events lb pe) lb
      (some ((replayGo lb (sortByTime doc.events) none none).1.getD
        doc.current_flavor))
      ((replayGo lb (sortByTime doc.events) none none).2.getD doc.state) lb pe
      (le_refl lb) hmem (pairwise_sortByTime _)
    by_cases htail : tailCond
        (segLoopIv table (billableSegments doc.events lb pe) lb
          (some ((replayGo lb (sortByTime doc.events) none none).1.getD
            doc.current_flavor))
          ((replayGo lb (sortByTime doc.events) none none).2.getD doc.state)).2.2.2
        (segLoopIv table (billableSegments doc.events lb pe) lb
          (some ((replayGo lb (sortByTime doc.events) none none).1.getD
            doc.current_flavor))
          ((replayGo lb (sortByTime doc.events) none none).2.getD doc.state)).2.2.1
        ((billableSegments doc.events lb pe).any (fun seg => seg.type == "deleted"))
        (segLoopIv table (billableSegments doc.events lb pe) lb
          (some ((replayGo lb (sortByTime doc.events) none none).1.getD
            doc.current_flavor))
          ((replayGo lb (sortByTime doc.events) none none).2.getD doc.state)).2.1
        pe = true
    · rw [if_pos htail]
      intro iv hiv
      rcases List.mem_append.mp hiv with h | h
      · exact hbd.1 iv h
      · rcases List.mem_singleton.mp h with rfl
        refine ⟨hbd.2, ?_, le_refl _⟩
        have := htail
        unfold tailCond at this
        simp only [Bool.and_eq_true, decide_eq_true_eq] at this
        exact le_of_lt this.2
    · rw [if_neg htail]
      exact hbd.1

/-- Pairwise sortedness of the segments used inside `billableSegments`. -/
theorem billableSegments_pairwise (events : List EventRec) (lb pe : ℚ) :
    List.Pairwise (fun a b => a.time ≤ b.time) (billableSegments events lb pe) :=
  pairwise_sortByTime _

/-- **C4**: for a compute resource deleted inside the open billing window
(`last_billed_until < deleted_at ≤ period_end`), the billing cutoff
equals `deleted_at`, and the charge computed by
`_calculate_compute_charge` is exactly the sum of `rate × hours` over its
charged intervals, every one of which lies inside
`[last_billed_until, deleted_at]` — no interval after the delete event
contributes. -/
theorem compute_charge_stops_at_delete (doc : ComputeDoc)
    (table : List (String × ℚ)) (lb pe da : ℚ)
    (hda : doc.deleted_at = some da) (h1 : lb < da) (h2 : da ≤ pe) :
    resourceBillingEnd doc.deleted_at pe = da ∧
    calculateComputeCharge doc lb (resourceBillingEnd doc.deleted_at pe) table
      = ivSum (chargedIntervals doc lb (resourceBillingEnd doc.deleted_at pe) table) ∧
    ∀ iv ∈ chargedIntervals doc lb (resourceBillingEnd doc.deleted_at pe) table,
      lb ≤ iv.lo ∧ iv.lo ≤ iv.hi ∧ iv.hi ≤ da := by
  have hbe : resourceBillingEnd doc.deleted_at pe = da := by
    rw [hda]
    simp only [resourceBillingEnd]
    rcases lt_or_eq_of_le h2 with h | h
    · rw [if_pos h]
    · rw [if_neg (by rw [h]; exact lt_irrefl pe), h]
  rw [hbe]
  exact ⟨rfl, calculateComputeCharge_eq_ivSum doc lb da table,
    chargedIntervals_bounds doc lb da table (le_of_lt h1)⟩

/-- Concrete compute document for the C4 witness: created at 0, deleted at
1800, billed from 0 with period end 7200. -/
def deletedComputeEx : ComputeDoc :=
  ⟨"c1", "u1", "deleted", "small", 0, some 1800, 0,
    [⟨0, "create", some "small"⟩, ⟨1800, "deleted", none⟩]⟩

/-- Witness for `compute_charge_stops_at_delete` at a concrete resource. -/
theorem compute_charge_stops_at_delete_witness :
    resourceBillingEnd deletedComputeEx.deleted_at 7200 = 1800 ∧
    calculateComputeCharge deletedComputeEx 0
        (resourceBillingEnd deletedComputeEx.deleted_at 7200) [("small", 1/2)]
      = ivSum (chargedIntervals deletedComputeEx 0
          (resourceBillingEnd deletedComputeEx.deleted_at 7200) [("small", 1/2)]) ∧
    ∀ iv ∈ chargedIntervals deletedComputeEx 0
        (resourceBillingEnd deletedComputeEx.deleted_at 7200) [("small", 1/2)],
      0 ≤ iv.lo ∧ iv.lo ≤ iv.hi ∧ iv.hi ≤ 1800 :=
  compute_charge_stops_at_delete deletedComputeEx [("small", 1/2)] 0 7200 1800
    rfl (by norm_num) (by norm_num)

/-! ### API client retry loop (`mq_consumer/api_client.py`, `_request`) -/

/-- What a single HTTP attempt yields: a response with a status code, a
timeout (`httpx.TimeoutException`), a connection error
(`httpx.ConnectError`), or any other exception. -/
inductive AttemptOutcome where
  | http (status : Nat)
  | timeout
  | connectError
  | otherError
deriving DecidableEq, Repr

/-- The structured result codes of the client. -/
inductive APIResult where
  | success
  | conflict
  | notFound
  | error
deriving DecidableEq, Repr

/-- Response classification in `_request` (lines 78–107): `409 →
conflict`, `404 → not_found`, other `≥ 400 → error`, else `success`. -/
def classify (status : Nat) : APIResult :=
  if status == 409 then .conflict
  else if status == 404 then .notFound
  else if 400 ≤ status then .error
  else .success

/-- The outcomes `_request` retries on. -/
def retryable : AttemptOutcome → Bool
  | .timeout => true
  | .connectError => true
  | _ => false

/-- The attempt loop of `_request` from a given attempt index: an HTTP
response returns its classification immediately; a timeout or connection
error on the last attempt returns an error, otherwise sleeps
`retry_delay * (attempt + 1)` and retries; any other exception returns an
error.  The result also carries the list of backoff delays slept. -/
def requestGo (rc : Nat) (outcome : Nat → AttemptOutcome) (d : ℚ)
    (attempt : Nat) : APIResult × List ℚ :=
  if h : attempt < rc then
    match outcome attempt with
    | .http n => (classify n, [])
    | .timeout =>
      if attempt = rc - 1 then (.error, [])
      else
        let r := requestGo rc outcome d (attempt + 1)
        (r.1, d * ((attempt : ℚ) + 1) :: r.2)
    | .connectError =>
      if attempt = rc - 1 then (.error, [])
      else
        let r := requestGo rc outcome d (attempt + 1)
        (r.1, d * ((attempt : ℚ) + 1) :: r.2)
    | .otherError => (.error, [])
  else (.error, [])
termination_by rc - attempt
decreasing_by
  all_goals omega

/-- `BillingAPIClient._request` with `retry_count = rc`. -/
def requestR (rc : Nat) (outcome : Nat → AttemptOutcome) (d : ℚ) :
    APIResult × List ℚ :=
  requestGo rc outcome d 0

/-- Number of retries (sleeps) the loop performs from a given attempt. -/
def retriesFrom (rc : Nat) (outcome : Nat → AttemptOutcome)
    (attempt : Nat) : Nat :=
  if h : attempt < rc then
    match outcome attempt with
    | .timeout =>
      if attempt = rc - 1 then 0 else retriesFrom rc outcome (attempt + 1) + 1
    | .connectError =>
      if attempt = rc - 1 then 0 else retriesFrom rc outcome (attempt + 1) + 1
    | _ => 0
  else 0
termination_by rc - attempt
decreasing_by
  all_goals omega

theorem requestGo_delays (rc : Nat) (outcome : Nat → AttemptOutcome) (d : ℚ) :
    ∀ k a, rc - a ≤ k →
    (requestGo rc outcome d a).2
      = (List.range (retriesFrom rc outcome a)).map
          (fun i : Nat => d * ((a : ℚ) + (i : ℚ) + 1)) := by
  intro k
  induction k with
  | zero =>
    intro a ha
    have h : ¬ a < rc := by omega
    rw [requestGo, retriesFrom, dif_neg h, dif_neg h]
    simp
  | succ k ih =>
    intro a ha
    by_cases h : a < rc
    · rw [requestGo, retriesFrom, dif_pos h, dif_pos h]
      cases houtcome : outcome a with
      | http n => simp
      | otherError => simp
      | timeout =>
        by_cases hlast : a = rc - 1
        · simp [hlast]
        · simp only [if_neg hlast]
          rw [ih (a + 1) (by omega)]
          rw [List.range_succ_eq_map, List.map_cons, List.map_map]
          congr 1
          · push_cast
            ring
          · refine List.map_congr_left ?_
            intro i _
            simp only [Function.comp_apply]
            push_cast
            ring
      | connectError =>
        by_cases hlast : a = rc - 1
        · simp [hlast]
        · simp only [if_neg hlast]
          rw [ih (a + 1) (by omega)]
          rw [List.range_succ_eq_map, List.map_cons, List.map_map]
          congr 1
          · push_cast
            ring
          · refine List.map_congr_left ?_
            intro i _
            simp only [Function.comp_apply]
            push_cast
            ring
    · rw [requestGo, retriesFrom, dif_neg h, dif_neg h]
      simp

theorem retriesFrom_retryable (rc : Nat) (outcome : Nat → AttemptOutcome) :
    ∀ k a, rc - a ≤ k →
    ∀ i, i < retriesFrom rc outcome a → retryable (outcome (a + i)) = true := by
  intro k
  induction k with
  | zero =>
    intro a ha i hi
    have h : ¬ a < rc := by omega
    rw [retriesFrom, dif_neg h] at hi
    omega
  | succ k ih =>
    intro a ha i hi
    by_cases h : a < rc
    · rw [retriesFrom, dif_pos h] at hi
      cases houtcome : outcome a with
      | http n => rw [houtcome] at hi; simp at hi
      | otherError => rw [houtcome] at hi; simp at hi
      | timeout =>
        rw [houtcome] at hi
        by_cases hlast : a = rc - 1
        · simp [hlast] at hi
        · simp only [if_neg hlast] at hi
          cases i with
          | zero => simp [retryable, houtcome]
          | succ j =>
            have := ih (a + 1) (by omega) j (by omega)
            simpa [Nat.add_assoc, Nat.add_comm 1 j] using this
      | connectError =>
        rw [houtcome] at hi
        by_cases hlast : a = rc - 1
        · simp [hlast] at hi
        · simp only [if_neg hlast] at hi
          cases i with
          | zero => simp [retryable, houtcome]
          | succ j =>
            have := ih (a + 1) (by omega) j (by omega)
            simpa [Nat.add_assoc, Nat.add_comm 1 j] using this
    · rw [retriesFrom, dif_neg h] at hi
      omega

theorem retriesFrom_le (rc : Nat) (outcome : Nat → AttemptOutcome) :
    ∀ k a, rc - a ≤ k → retriesFrom rc outcome a ≤ rc - 1 - a := by
  intro k
  induction k with
  | zero =>
    intro a ha
    have h : ¬ a < rc := by omega
    rw [retriesFrom, dif_neg h]
    omega
  | succ k ih =>
    intro a ha
    by_cases h : a < rc
    · rw [retriesFrom, dif_pos h]
      cases houtcome : outcome a with
      | http n => simp
      | otherError => simp
      | timeout =>
        by_cases hlast : a = rc - 1
        · simp [hlast]
        · simp only [if_neg hlast]
          have := ih (a + 1) (by omega)
          omega
      | connectError =>
        by_cases hlast : a = rc - 1
        · simp [hlast]
        · simp only [if_neg hlast]
          have := ih (a + 1) (by omega)
          omega
    · rw [retriesFrom, dif_neg h]
      omega

/-- **C9**: `_request` returns any HTTP response immediately with its
classification and no backoff sleep — in particular a `4xx` other than
404/409 is an immediate `error`, 409 is `conflict`, 404 is `not_found`;
sleeps happen only after timeout/connection-error attempts, the `j`-th
sleep lasting `retry_delay × j` (`j` counted from 1), and at most
`retry_count − 1` retries are performed. -/
theorem request_spec (rc : Nat) (outcome : Nat → AttemptOutcome) (d : ℚ)
    (hrc : 0 < rc) :
    (∀ n, outcome 0 = .http n → requestR rc outcome d = (classify n, [])) ∧
    (∀ n, 400 ≤ n → n ≠ 404 → n ≠ 409 → classify n = .error) ∧
    classify 409 = .conflict ∧
    classify 404 = .notFound ∧
    (requestR rc outcome d).2
      = (List.range (retriesFrom rc outcome 0)).map
          (fun i : Nat => d * ((i : ℚ) + 1)) ∧
    (∀ i, i < retriesFrom rc outcome 0 → retryable (outcome i) = true) ∧
    retriesFrom rc outcome 0 ≤ rc - 1 := by
  refine ⟨?_, ?_, rfl, rfl, ?_, ?_, ?_⟩
  · intro n h
    unfold requestR
    rw [requestGo, dif_pos hrc, h]
  · intro n h4 h404 h409
    unfold classify
    rw [if_neg (by simp [h409]), if_neg (by simp [h404]), if_pos h4]
  · unfold requestR
    rw [requestGo_delays rc outcome d (rc - 0) 0 (le_refl _)]
    refine List.map_congr_left ?_
    intro i _
    push_cast
    ring
  · intro i hi
    have := retriesFrom_retryable rc outcome (rc - 0) 0 (le_refl _) i hi
    simpa using this
  · exact le_trans (retriesFrom_le rc outcome (rc - 0) 0 (le_refl _)) (by omega)

/-- Concrete attempt trace for the C9 witness: first attempt times out,
second attempt returns HTTP 200. -/
def outcomeEx : Nat → AttemptOutcome :=
  fun i => if i == 0 then .timeout else .http 200

/-- Witness for `request_spec` at `retry_count = 3`, `retry_delay = 2`. -/
theorem request_spec_witness :
    (∀ n, outcomeEx 0 = .http n → requestR 3 outcomeEx 2 = (classify n, [])) ∧
    (∀ n, 400 ≤ n → n ≠ 404 → n ≠ 409 → classify n = .error) ∧
    classify 409 = .conflict ∧
    classify 404 = .notFound ∧
    (requestR 3 outcomeEx 2).2
      = (List.range (retriesFrom 3 outcomeEx 0)).map
          (fun i : Nat => 2 * ((i : ℚ) + 1)) ∧
    (∀ i, i < retriesFrom 3 outcomeEx 0 → retryable (outcomeEx i) = true) ∧
    retriesFrom 3 outcomeEx 0 ≤ 3 - 1 :=
  request_spec 3 outcomeEx 2 (by norm_num)

/-! ### Message normalizer (`mq_consumer/parsers.py`) -/

/-- A timestamp value found in a message: a datetime object, an epoch
number, or a string (datetimes and epochs carried as rational seconds). -/
inductive TsVal where
  | dtV (t : ℚ)
  | numV (q : ℚ)
  | strV (s : String)
deriving DecidableEq, Repr

/-- Python truthiness of a timestamp candidate value. -/
def TsVal.truthy : TsVal → Bool
  | .dtV _ => true
  | .numV q => !(q == 0)
  | .strV s => !(strEmpty s)

/-- Python's `a or b` on optional values (falsy values fall through). -/
def pyOr (a b : Option TsVal) : Option TsVal :=
  match a with
  | some v => if v.truthy then some v else b
  | none => b

/-- First-present choice among dict keys (`if key in d: return d[key]`). -/
def orOpt (a b : Option String) : Option String :=
  match a with
  | some v => some v
  | none => b

/-- The nested `floatingip` sub-dict of a neutron payload. -/
structure FipSub where
  tenant_id : Option String := none
  project_id : Option String := none
  user_id : Option String := none
  id : Option String := none
  floating_ip_address : Option String := none
  ip_address : Option String := none
  floating_ip : Option String := none
  address : Option String := none
  port_id : Option String := none
  fixed_ip_address : Option String := none
  instance_id : Option String := none
  server_id : Option String := none
deriving DecidableEq, Repr

/-- One element of a cinder `attachments` array. -/
structure AttachSub where
  server_id : Option String := none
  instance_id : Option String := none
deriving DecidableEq, Repr

/-- A `flavor` value: either a dict (with `name` / `id`) or a string. -/
inductive FlavorV where
  | dictF (name : Option String) (fid : Option String)
  | strF (s : String)
deriving DecidableEq, Repr

/-- The keys of a message payload that the normalizer inspects (`None`
means the key is absent). -/
structure Payload where
  floatingip : Option FipSub := none
  user_id : Option String := none
  tenant_id : Option String := none
  project_id : Option String := none
  owner_id : Option String := none
  owner : Option String := none
  resource_id : Option String := none
  instance_id : Option String := none
  volume_id : Option String := none
  floatingip_id : Option String := none
  id : Option String := none
  flavor : Option FlavorV := none
  instance_type : Option String := none
  state : Option String := none
  status : Option String := none
  size : Option Int := none
  floating_ip_address : Option String := none
  ip_address : Option String := none
  floating_ip : Option String := none
  address : Option String := none
  port_id : Option String := none
  fixed_ip_address : Option String := none
  server_id : Option String := none
  instance_uuid : Option String := none
  attachments : Option (List AttachSub) := none
deriving DecidableEq, Repr

/-- A decoded queue message: the keys the normalizer inspects, both at the
top level and under the `payload` key (`routing_key` models the injected
`_routing_key`). -/
structure Message where
  event_type : Option String := none
  routing_key : Option String := none
  oslo_type : Option String := none
  payload : Option Payload := none
  timestamp : Option TsVal := none
  generated : Option TsVal := none
  created_at : Option TsVal := none
  user_id : Option String := none
  tenant_id : Option String := none
  project_id : Option String := none
  owner_id : Option String := none
  owner : Option String := none
  resource_id : Option String := none
  instance_id : Option String := none
  volume_id : Option String := none
  floatingip_id : Option String := none
  id : Option String := none
  flavor : Option FlavorV := none
  instance_type : Option String := none
  state : Option String := none
  status : Option String := none
  size : Option Int := none
  floating_ip_address : Option String := none
  ip_address : Option String := none
  floating_ip : Option String := none
  address : Option String := none
  port_id : Option String := none
  fixed_ip_address : Option String := none
  server_id : Option String := none
  instance_uuid : Option String := none
  attachments : Option (List AttachSub) := none
  floatingipSub : Option FipSub := none
deriving DecidableEq, Repr

/-- `message.get("payload", message)`: when a message carries no `payload`
key, its own keys serve as the payload (the payload parsers use this
fallback; the extract helpers use `message.get("payload", {})` instead). -/
def messageAsPayload (m : Message) : Payload :=
  { floatingip := m.floatingipSub, user_id := m.user_id,
    tenant_id := m.tenant_id, project_id := m.project_id,
    owner_id := m.owner_id, owner := m.owner, resource_id := m.resource_id,
    instance_id := m.instance_id, volume_id := m.volume_id,
    floatingip_id := m.floatingip_id, id := m.id, flavor := m.flavor,
    instance_type := m.instance_type, state := m.state, status := m.status,
    size := m.size, floating_ip_address := m.floating_ip_address,
    ip_address := m.ip_address, floating_ip := m.floating_ip,
    address := m.address, port_id := m.port_id,
    fixed_ip_address := m.fixed_ip_address, server_id := m.server_id,
    instance_uuid := m.instance_uuid, attachments := m.attachments }

/-- Substring test on character lists (Python's `in` on strings). -/
def strContainsAux (sub : List Char) : List Char → Bool
  | [] => sub.isEmpty
  | c :: cs => sub.isPrefixOf (c :: cs) || strContainsAux sub cs

/-- Python `sub in s`. -/
def strContains (s sub : String) : Bool :=
  strContainsAux sub.toList s.toList

/-- `any(x in s for x in subs)`. -/
def anyContains (s : String) (subs : List String) : Bool :=
  subs.any (fun sub => strContains s sub)

/-- `MessageParser.extract_user_id`: the nested `floatingip` dict keys
first, then `user_id`/`tenant_id`/`project_id`/`owner_id`/`owner`,
checking the top level before the payload for each key. -/
def extractUserId (m : Message) : Option String :=
  let p := m.payload.getD {}
  let fipHit : Option String :=
    match p.floatingip with
    | some fip => orOpt fip.tenant_id (orOpt fip.project_id fip.user_id)
    | none => none
  match fipHit with
  | some v => some v
  | none =>
    orOpt m.user_id (orOpt p.user_id (orOpt m.tenant_id (orOpt p.tenant_id
      (orOpt m.project_id (orOpt p.project_id (orOpt m.owner_id
        (orOpt p.owner_id (orOpt m.owner p.owner))))))))

/-- `MessageParser.extract_resource_id`: the nested `floatingip.id`
first, then `resource_id`/`instance_id`/`volume_id`/`floatingip_id`/`id`,
top level before payload for each key. -/
def extractResourceId (m : Message) : Option String :=
  let p := m.payload.getD {}
  let fipHit : Option String :=
    match p.floatingip with
    | some fip => fip.id
    | none => none
  match fipHit with
  | some v => some v
  | none =>
    orOpt m.resource_id (orOpt p.resource_id (orOpt m.instance_id
      (orOpt p.instance_id (orOpt m.volume_id (orOpt p.volume_id
        (orOpt m.floatingip_id (orOpt p.floatingip_id (orOpt m.id p.id))))))))

/-- Canonical resource types. -/
inductive ResourceType where
  | compute
  | disk
  | floating_ip
deriving DecidableEq, Repr

/-- Canonical event types. -/
inductive EventType where
  | create
  | update
  | delete
  | start
  | stop
  | resize
  | attach
  | detach
  | allocate
  | release
deriving DecidableEq, Repr

/-- Models ``"floatingip" in str(message).lower()``: the dict rendering
contains that substring exactly when some key or textual value carries
it — here the event type or routing key text, or a floatingip-related
key. -/
def mentionsFloatingip (m : Message) : Bool :=
  let p := m.payload.getD {}
  strContains (lowerStr (m.event_type.getD "")) "floatingip" ||
  strContains (lowerStr (m.routing_key.getD "")) "floatingip" ||
  p.floatingip.isSome || p.floatingip_id.isSome || m.floatingip_id.isSome

/-- `MessageParser.detect_resource_type`: event-type substrings, then
routing-key hints, then payload shape. -/
def detectResourceType (m : Message) : Option ResourceType :=
  let et := lowerStr (m.event_type.getD "")
  let rk := lowerStr (m.routing_key.getD "")
  let p := m.payload.getD {}
  if anyContains et ["instance", "compute", "server"] then some .compute
  else if anyContains et ["volume", "disk"] then some .disk
  else if anyContains et ["floatingip", "floating_ip", "fip"] then some .floating_ip
  else if strContains rk "compute" || strContains rk "nova" then some .compute
  else if strContains rk "volume" || strContains rk "cinder" then some .disk
  else if (strContains rk "floatingip" || strContains rk "neutron")
      && mentionsFloatingip m then some .floating_ip
  else if p.instance_id.isSome || p.flavor.isSome then some .compute
  else if p.volume_id.isSome || (p.size.isSome && !p.instance_id.isSome)
    then some .disk
  else if p.floating_ip_address.isSome || p.floatingip.isSome
    then some .floating_ip
  else none

/-- `MessageParser.detect_event_type`: substring match in the source's
priority order (note `attach` is tested before `detach`, as in the
source), defaulting to `update`. -/
def detectEventType (m : Message) : EventType :=
  let s := lowerStr (m.event_type.getD "")
  if anyContains s ["create", "build", "spawn"] then .create
  else if anyContains s ["delete", "destroy", "terminate"] then .delete
  else if anyContains s ["start", "power_on", "resume", "unpause"] then .start
  else if anyContains s ["stop", "power_off", "pause", "suspend", "shutdown"]
    then .stop
  else if strContains s "resize" then .resize
  else if strContains s "attach" then .attach
  else if strContains s "detach" then .detach
  else if strContains s "allocate" then .allocate
  else if anyContains s ["release", "deallocate"] then .release
  else .update

/-- The six `strptime` formats accepted by `parse_timestamp`. -/
def tsFormats : List String :=
  ["%Y-%m-%dT%H:%M:%S.%fZ", "%Y-%m-%dT%H:%M:%SZ", "%Y-%m-%dT%H:%M:%S.%f",
   "%Y-%m-%dT%H:%M:%S", "%Y-%m-%d %H:%M:%S.%f", "%Y-%m-%d %H:%M:%S"]

/-- The format loop: first format that `strptime` accepts. -/
def firstParse (strptime : String → String → Option ℚ) (s : String) :
    List String → Option ℚ
  | [] => none
  | fmt :: rest =>
    match strptime fmt s with
    | some t => some t
    | none => firstParse strptime s rest

/-- `MessageParser.parse_timestamp`: a datetime is returned as is, a
number is `utcfromtimestamp`, a string is tried against the formats, and
everything else — including a missing value and an unmatchable string —
falls through to `datetime.utcnow()` (the `now` parameter).  The library
`strptime` is abstracted as a parameter. -/
def parseTimestamp (strptime : String → String → Option ℚ) (now : ℚ) :
    Option TsVal → ℚ
  | some (.dtV t) => t
  | some (.numV q) => q
  | some (.strV s) =>
    match firstParse strptime s tsFormats with
    | some t => t
    | none => now
  | none => now

/-- `message.get("timestamp") or message.get("generated") or
message.get("created_at")` (Python `or`, so falsy values fall through). -/
def tsCandidate (m : Message) : Option TsVal :=
  pyOr m.timestamp (pyOr m.generated m.created_at)

/-- Normalized payload produced by the per-type parsers
(`ComputeParser` / `DiskParser` / `FloatingIPParser`). -/
structure EvPayload where
  flavor : Option String := none
  state : Option String := none
  size_gb : Option Int := none
  attached_to : Option String := none
  ip_address : Option String := none
  port_id : Option String := none
deriving DecidableEq, Repr

/-- `OPENSTACK_STATE_MAP.get(os_state, os_state)`. -/
def openstackStateMap (s : String) : String :=
  if s == "active" then "running"
  else if s == "stopped" then "stopped"
  else if s == "paused" then "stopped"
  else if s == "suspended" then "stopped"
  else if s == "shutoff" then "stopped"
  else if s == "deleted" then "deleted"
  else if s == "error" then "stopped"
  else if s == "build" then "running"
  else s

/-- `ComputeParser.parse`. -/
def computeParse (m : Message) (et : EventType) : EvPayload :=
  let p := m.payload.getD (messageAsPayload m)
  let flavorName : Option String :=
    match p.flavor with
    | some (.dictF name fid) => orOpt name fid
    | some (.strF s) => some s
    | none => p.instance_type
  let st : Option String :=
    match p.state with
    | some s => some (openstackStateMap (lowerStr s))
    | none =>
      match et with
      | .create => some "running"
      | .delete => some "deleted"
      | .start => some "running"
      | .stop => some "stopped"
      | _ => none
  { flavor := if flavorTruthy flavorName then flavorName else none,
    state := if flavorTruthy st then st else none }

/-- `DiskParser.parse`. -/
def diskParse (m : Message) (et : EventType) : EvPayload :=
  let p := m.payload.getD (messageAsPayload m)
  let attached : Option String :=
    match p.attachments with
    | some (a :: _) => orOpt a.server_id a.instance_id
    | _ => p.instance_uuid
  let st : Option String :=
    match p.status with
    | some s0 =>
      let s := lowerStr s0
      if s == "in-use" then some "attached"
      else if s == "available" then some "detached"
      else if s == "deleted" then some "deleted"
      else none
    | none =>
      match et with
      | .delete => some "deleted"
      | .attach => some "attached"
      | .detach => some "detached"
      | _ => none
  { size_gb := p.size, attached_to := attached,
    state := if flavorTruthy st then st else none }

/-- The `attached_to` assignment of `FloatingIPParser.parse`: triggered by
the presence of any of `fixed_ip_address`/`instance_id`/`server_id`, its
value is `payload.get("instance_id") or payload.get("server_id")`. -/
def fipAttached (fixedIp instId srvId : Option String) : Option String :=
  if fixedIp.isSome || instId.isSome || srvId.isSome then
    match instId with
    | some v => if strEmpty v then srvId else some v
    | none => srvId
  else none

/-- `FloatingIPParser.parse`. -/
def fipParse (m : Message) (_et : EventType) : EvPayload :=
  let p0 := m.payload.getD (messageAsPayload m)
  match p0.floatingip with
  | some fip =>
    { ip_address := orOpt fip.floating_ip_address (orOpt fip.ip_address
        (orOpt fip.floating_ip fip.address)),
      port_id := fip.port_id,
      attached_to := fipAttached fip.fixed_ip_address fip.instance_id
        fip.server_id }
  | none =>
    { ip_address := orOpt p0.floating_ip_address (orOpt p0.ip_address
        (orOpt p0.floating_ip p0.address)),
      port_id := p0.port_id,
      attached_to := fipAttached p0.fixed_ip_address p0.instance_id
        p0.server_id }

/-- The canonical event produced by the normalizer. -/
structure ParsedEvent where
  resource_type : ResourceType
  event_type : EventType
  resource_id : String
  user_id : String
  timestamp : ℚ
  payload : EvPayload
deriving DecidableEq, Repr

/-- `parse_message`: classify the resource type (`None` on failure),
detect the event type, extract the ids (`None` when either is missing or
empty), parse the timestamp, and build the typed payload. -/
def parseMessage (strptime : String → String → Option ℚ) (now : ℚ)
    (m : Message) : Option ParsedEvent :=
  match detectResourceType m with
  | none => none
  | some rt =>
    let et := detectEventType m
    match extractResourceId m, extractUserId m with
    | some r, some u =>
      if strEmpty r || strEmpty u then none
      else
        let ts := parseTimestamp strptime now (tsCandidate m)
        let pl := match rt with
          | .compute => computeParse m et
          | .disk => diskParse m et
          | .floating_ip => fipParse m et
        some ⟨rt, et, r, u, ts, pl⟩
    | _, _ => none

/-! ### Consumer acknowledgement decisions (`mq_consumer/consumer.py`) -/

/-- What the consumer does with a raw delivery. -/
inductive AckAction where
  | ack
  | nackRequeue
  | rejectNoRequeue
deriving DecidableEq, Repr

/-- Non-batched path `MQConsumer._process_message` (lines 197–204) on a
JSON-decodable body: `EventHandler.process_message` returns `None`
exactly when the normalizer does, and `result and result.success` acks
while everything else nacks **with requeue**.  `handlerSuccess` abstracts
the downstream API outcome for a parsed event. -/
def nonBatchedAction (strptime : String → String → Option ℚ) (now : ℚ)
    (handlerSuccess : ParsedEvent → Bool) (m : Message) : AckAction :=
  match parseMessage strptime now m with
  | none => .nackRequeue
  | some ev => if handlerSuccess ev then .ack else .nackRequeue

/-- `EventHandler.process_batch`: per-message results are gathered and
`None` results (unparseable messages) are **dropped** from the returned
list. -/
def processBatchResults (strptime : String → String → Option ℚ) (now : ℚ)
    (handlerSuccess : ParsedEvent → Bool) (msgs : List Message) : List Bool :=
  msgs.filterMap (fun m => (parseMessage strptime now m).map handlerSuccess)

/-- `MessageBatcher._process_batch` (lines 103–110): `zip` the raw
deliveries with the (possibly shorter) results list and ack or
nack-with-requeue each pair; deliveries beyond the results length receive
no acknowledgement at all. -/
def batchAckActions (strptime : String → String → Option ℚ) (now : ℚ)
    (handlerSuccess : ParsedEvent → Bool) (msgs : List Message) :
    List AckAction :=
  (msgs.zip (processBatchResults strptime now handlerSuccess msgs)).map
    (fun pr => if pr.2 then AckAction.ack else AckAction.nackRequeue)

/-- A well-formed JSON message carrying a compute create event but no
extractable `user_id`. -/
def droppedUserMsg : Message :=
  { event_type := some "compute.instance.create",
    payload := some { instance_id := some "i-1" } }

/-- **C3** (code_bug demonstration).  On a message the normalizer maps to
`None` (here: no extractable `user_id`), the non-batched consumer path
nacks the delivery **with requeue** — it is returned to the main queue,
not dead-lettered — and the batched path drops the message from the
results list entirely, so the raw delivery receives no
acknowledgement at all; neither path performs the
reject-without-requeue the specification requires. -/
theorem unparseable_message_not_dead_lettered :
    (∀ strptime now, parseMessage strptime now droppedUserMsg = none) ∧
    (∀ strptime now handlerSuccess,
      nonBatchedAction strptime now handlerSuccess droppedUserMsg
        = .nackRequeue) ∧
    (∀ strptime now handlerSuccess,
      batchAckActions strptime now handlerSuccess [droppedUserMsg] = []) ∧
    AckAction.nackRequeue ≠ AckAction.rejectNoRequeue := by
  refine ⟨fun f t => rfl, fun f t h => rfl, fun f t h => rfl, by simp⟩

theorem firstParse_none (strptime : String → String → Option ℚ) (s : String) :
    ∀ l : List String, (∀ fmt ∈ l, strptime fmt s = none) →
    firstParse strptime s l = none := by
  intro l h
  induction l with
  | nil => rfl
  | cons fmt rest ih =>
    simp only [firstParse]
    rw [h fmt (List.mem_cons_self _ _)]
    exact ih (fun f hf => h f (List.mem_cons_of_mem _ hf))

/-- The timestamp value is not a datetime, not a number, and (when a
string) matches none of the accepted formats — including the
missing-key case. -/
def timestampGarbage (strptime : String → String → Option ℚ) :
    Option TsVal → Prop
  | none => True
  | some (.strV s) => ∀ fmt ∈ tsFormats, strptime fmt s = none
  | some (.dtV _) => False
  | some (.numV _) => False

theorem parseTimestamp_garbage (strptime : String → String → Option ℚ)
    (now : ℚ) (v : Option TsVal) (hv : timestampGarbage strptime v) :
    parseTimestamp strptime now v = now := by
  cases v with
  | none => rfl
  | some w =>
    cases w with
    | dtV t => exact absurd hv (by simp [timestampGarbage])
    | numV q => exact absurd hv (by simp [timestampGarbage])
    | strV s =>
      simp only [parseTimestamp]
      rw [firstParse_none strptime s tsFormats hv]

/-- **C10**: the timestamp parser is total — whenever `parse_message`
produces an event from a message whose timestamp candidate is neither a
datetime nor a number and matches none of the accepted string formats
(including a missing timestamp), the event's timestamp is the current
wall-clock time `now` substituted at parse time. -/
theorem parse_timestamp_total_fallback
    (strptime : String → String → Option ℚ) (now : ℚ) (m : Message)
    (ev : ParsedEvent) (hp : parseMessage strptime now m = some ev)
    (hts : timestampGarbage strptime (tsCandidate m)) :
    ev.timestamp = now := by
  have hpt := parseTimestamp_garbage strptime now (tsCandidate m) hts
  unfold parseMessage at hp
  cases hrt : detectResourceType m with
  | none => rw [hrt] at hp; simp at hp
  | some rt =>
    rw [hrt] at hp
    simp only at hp
    cases hrid : extractResourceId m with
    | none => rw [hrid] at hp; simp at hp
    | some r =>
      rw [hrid] at hp
      cases huid : extractUserId m with
      | none => rw [huid] at hp; simp at hp
      | some u =>
        rw [huid] at hp
        simp only at hp
        by_cases hre : (strEmpty r || strEmpty u) = true
        · rw [if_pos hre] at hp; simp at hp
        · rw [if_neg hre] at hp
          simp only [Option.some.injEq] at hp
          rw [← hp]
          exact hpt

/-- Concrete message for the C10 witness: compute create with ids but an
unmatchable timestamp string. -/
def garbageTsMsg : Message :=
  { event_type := some "compute.instance.create",
    payload := some { instance_id := some "i-1", user_id := some "u1" },
    timestamp := some (.strV "not-a-time") }

/-- A `strptime` that accepts nothing. -/
def noParse : String → String → Option ℚ := fun _ _ => none

/-- Witness for `parse_timestamp_total_fallback` on a concrete message. -/
theorem parse_timestamp_total_fallback_witness :
    ∃ ev, parseMessage noParse 42 garbageTsMsg = some ev ∧ ev.timestamp = 42 :=
  ⟨⟨.compute, .create, "i-1", "u1", 42, { state := some "running" }⟩, rfl,
    parse_timestamp_total_fallback noParse 42 garbageTsMsg
      ⟨.compute, .create, "i-1", "u1", 42, { state := some "running" }⟩ rfl
      (fun fmt _ => rfl)⟩

end Billing
